import Mathlib

/-!
Shallow embedding of the rule-matching and lockfile-traversal engine of
`src/index.js` (a dependency-checking action): rule-feed normalization
(`loadBadDependencyRules`), version matching (`matchBadRules`, on top of a
model of the npm `semver` library's `coerce` and `satisfies`), and the
recursive lockfile walker (`scanPackageLock` / `visit`).

Modelling conventions:
* Parsed JSON documents are the inductive `JSValue`.  JSON numbers are
  restricted to integers (no claim involves fractional numbers); object
  field lists hold the key/value pairs in `Object.entries` / `for..in`
  enumeration order (keys distinct): integer-like keys first in ascending
  numeric order, then the remaining keys in insertion order.  Since
  `JSON.parse` and `Object.entries` use the same ordering rule, a field
  list in that order represents the parsed object faithfully.
* JavaScript string conversion (`String(x)`), truthiness, and property
  lookup are modelled by `jsToString`, `truthy`, and `nodeGet`.
* The undeclared-variable `ReferenceError` thrown by the non-array branch
  of `loadBadDependencyRules` (its warning template reads `pkg`, which is
  never declared) is modelled as an `Except.error`.
* The dictionary read `rules[key]` follows the prototype chain: on a miss
  of the own properties it can still hit a member of `Object.prototype`
  (`constructor`, `toString`, `__proto__`, …).  `protoLookup` tabulates
  those members with their arities; `matchBadRulesE`, `visitE` and
  `scanPackageLockE` are the resulting `Except`-valued semantics, in which
  an inherited function of nonzero `.length` passes the guards and
  `pkgRules.filter` / `pkgRules.some` throws a `TypeError`.  The plain
  `matchBadRules`, `visit` and `scanPackageLock` are the prototype-free
  fragment (no document key or rule name collides with an
  `Object.prototype` member); `scanPackageLockE_ok_eq` proves the full
  model agrees with this fragment whenever it completes without throwing.
* The npm `semver` library is modelled from its v7 source: `coerce` by
  `coerce` (digit-run scan, strict reparse, 16-digit and
  `MAX_SAFE_INTEGER` limits) and `satisfies(…, {includePrerelease:true})`
  by `semverSatisfies` (comparator-set parsing with hyphen ranges, partial
  comparators, `x`-ranges, caret/tilde desugaring, star deletion and the
  comparator-join trims).
-/

/-- A parsed JSON value, as traversed by the walker.  `vObj` field lists
are in `Object.entries` enumeration order (integer-like keys first,
ascending, then insertion order), with distinct keys. -/
inductive JSValue where
  | vNull : JSValue
  | vBool : Bool → JSValue
  | vNum : Int → JSValue
  | vStr : String → JSValue
  | vArr : List JSValue → JSValue
  | vObj : List (String × JSValue) → JSValue

namespace JSValue

/-- JavaScript truthiness of a JSON value (`if (x)`). -/
def truthy : JSValue → Bool
  | vNull => false
  | vBool b => b
  | vNum n => n != 0
  | vStr s => s ≠ ""
  | vArr _ => true
  | vObj _ => true

/-- First-match association lookup in an object's field list. -/
def fieldLookup : List (String × JSValue) → String → Option JSValue
  | [], _ => none
  | (k, v) :: rest, key => if k = key then some v else fieldLookup rest key

/-- Property access `node.key` on a JSON value; `none` models `undefined`.
JSON-parsed arrays and scalars carry no own string-named properties. -/
def nodeGet : JSValue → String → Option JSValue
  | vObj fs, key => fieldLookup fs key
  | _, _ => none

/-- Whether `value && typeof value === "object"` holds: arrays and objects
only (`null` is excluded by the truthiness guard). -/
def objectLike : JSValue → Bool
  | vObj _ => true
  | vArr _ => true
  | _ => false

mutual
/-- JavaScript `String(x)` conversion of a JSON value. -/
def jsToString : JSValue → String
  | vNull => "null"
  | vBool b => if b then "true" else "false"
  | vNum n => toString n
  | vStr s => s
  | vArr xs => jsArrayToString xs
  | vObj _ => "[object Object]"

/-- `Array.prototype.join(",")`, as used by `String(array)`. -/
def jsArrayToString : List JSValue → String
  | [] => ""
  | [x] => jsElemToString x
  | x :: xs => jsElemToString x ++ "," ++ jsArrayToString xs

/-- Element rendering inside `Array.prototype.join`: `null` renders as the
empty string, every other value as its `String` conversion. -/
def jsElemToString : JSValue → String
  | vNull => ""
  | vBool b => if b then "true" else "false"
  | vNum n => toString n
  | vStr s => s
  | vArr xs => jsArrayToString xs
  | vObj _ => "[object Object]"
end

end JSValue

/-- The normalized rule mapping built by `loadBadDependencyRules`: package
name to ordered pattern list, in insertion order with distinct names
(a JavaScript object used as a dictionary). -/
abbrev RuleSet := List (String × List String)

/-- Own-property dictionary lookup `rules[name]`; `none` models
`undefined`.  This covers the prototype-free fragment: the general read,
which can hit an inherited `Object.prototype` member, is `lookupRuleJS`
below. -/
def lookupRule (rules : RuleSet) (name : String) : Option (List String) :=
  match rules with
  | [] => none
  | (k, v) :: rest => if k = name then some v else lookupRule rest name

/-- One iteration of the normalization loop for an array entry:
`if (!normalized[name]) normalized[name] = []` followed by
`[].push.apply(normalized[name], pkgAndRanges.slice(1).map(String))`. -/
def addRule (acc : RuleSet) (name : String) (pats : List String) : RuleSet :=
  if (lookupRule acc name).isSome then
    acc.map (fun p => if p.1 = name then (p.1, p.2 ++ pats) else p)
  else acc ++ [(name, pats)]

/-- The entry loop of `loadBadDependencyRules` (src/index.js lines 172-193),
applied to the already-parsed top-level feed array.  An array entry
contributes `String(entry[0])` (or `"undefined"` when the entry is empty,
since `entry[0]` is `undefined`) mapped to `entry.slice(1).map(String)`.
A non-array entry evaluates the warning template literal, whose `${pkg}`
reads the undeclared variable `pkg` and therefore throws a
`ReferenceError`, modelled as `Except.error`. -/
def loadBadDependencyRules (data : List JSValue) : Except String RuleSet :=
  go data []
where
  go : List JSValue → RuleSet → Except String RuleSet
    | [], acc => .ok acc
    | entry :: rest, acc =>
      match entry with
      | .vArr pkgAndRanges =>
        let name := match pkgAndRanges with
          | [] => "undefined"
          | v :: _ => JSValue.jsToString v
        go rest (addRule acc name (pkgAndRanges.drop 1 |>.map JSValue.jsToString))
      | _ => .error "ReferenceError: pkg is not defined"

/-- A concrete semantic version as produced by `semver.coerce`: coercion
extracts at most `major.minor.patch` and never yields pre-release or build
components, so those are absent from the model. -/
structure SemVer where
  major : Nat
  minor : Nat
  patch : Nat
  deriving DecidableEq, Repr

/-- Longest leading run of ASCII digits of a character list, with the rest. -/
def takeDigits : List Char → List Char × List Char
  | [] => ([], [])
  | c :: cs =>
    if c.isDigit then
      let p := takeDigits cs
      (c :: p.1, p.2)
    else ([], c :: cs)

theorem takeDigits_snd_length : ∀ cs : List Char, (takeDigits cs).2.length ≤ cs.length := by
  intro cs
  induction cs with
  | nil => simp [takeDigits]
  | cons c rest ih =>
    by_cases h : c.isDigit
    · simpa [takeDigits, h] using Nat.le_succ_of_le ih
    · simp [takeDigits, h]

/-- Numeric value of a digit string. -/
def digitsToNat (ds : List Char) : Nat :=
  ds.foldl (fun acc c => acc * 10 + (c.toNat - 48)) 0

/-- Validity of one matched component under `semver.parse`, which rejects
leading zeros (strict numeric identifiers) and values above JavaScript's
`Number.MAX_SAFE_INTEGER`. -/
def validComponent (ds : List Char) : Bool :=
  (ds = ['0'] || ds.head? != some '0') && digitsToNat ds ≤ 9007199254740991

/-- Optional `.digits` component after a matched component: the coercion
regex accepts `.` followed by a run of one to sixteen digits.  Returns the
component (if matched) and the remaining characters. -/
def nextComponent : List Char → Option (List Char) × List Char
  | '.' :: rest =>
    let p := takeDigits rest
    if p.1 ≠ [] ∧ p.1.length ≤ 16 then (some p.1, p.2)
    else (none, '.' :: rest)
  | cs => (none, cs)

/-- Assemble a coercion match whose major component is `d1` and whose
remaining input is `r1`: up to two further `.digits` components, then the
`semver.parse` validation of the reassembled `x.y.z` string. -/
def buildCoerced (d1 r1 : List Char) : Option SemVer :=
  let q2 := nextComponent r1
  match q2.1 with
  | none =>
    if validComponent d1 then some ⟨digitsToNat d1, 0, 0⟩ else none
  | some d2 =>
    let q3 := nextComponent q2.2
    match q3.1 with
    | none =>
      if validComponent d1 && validComponent d2 then
        some ⟨digitsToNat d1, digitsToNat d2, 0⟩
      else none
    | some d3 =>
      if validComponent d1 && validComponent d2 && validComponent d3 then
        some ⟨digitsToNat d1, digitsToNat d2, digitsToNat d3⟩
      else none

/-- Scan for the first position where the coercion regex
`(^|[^\d])(\d{1,16})(?:\.(\d{1,16}))?(?:\.(\d{1,16}))?($|[^\d])` can match:
a maximal digit run of at most sixteen digits.  A match can only start at
a run boundary (the character before the major group must be a non-digit
or the start), so positions inside a run are skipped; the Boolean argument
records whether the previous character was a digit. -/
def coerceScan : Bool → List Char → Option SemVer
  | _, [] => none
  | inRun, c :: rest =>
    if c.isDigit then
      if inRun then coerceScan true rest
      else
        let p := takeDigits rest
        if p.1.length + 1 ≤ 16 then buildCoerced (c :: p.1) p.2
        else coerceScan true rest
    else coerceScan false rest

/-- Model of `semver.coerce` on a JavaScript string: best-effort extraction
of a leading `major[.minor[.patch]]` group, `none` when no digit group is
found or the extracted components fail `semver.parse` validation. -/
def coerce (s : String) : Option SemVer :=
  coerceScan false s.data

/-- Whitespace in the JavaScript sense: the ECMAScript WhiteSpace and
LineTerminator sets, as removed by `String.prototype.trim` and matched by
`\s` — tab, LF, VT, FF, CR, space, NBSP, U+1680, U+2000..U+200A, the line
separators U+2028/U+2029, U+202F, U+205F, U+3000 and the BOM U+FEFF. -/
def isWsChar (c : Char) : Bool :=
  let n := c.toNat
  n = 0x20 || n = 0x09 || n = 0x0A || n = 0x0B || n = 0x0C || n = 0x0D ||
  n = 0xA0 || n = 0x1680 || (0x2000 ≤ n && n ≤ 0x200A) ||
  n = 0x2028 || n = 0x2029 || n = 0x202F || n = 0x205F || n = 0x3000 || n = 0xFEFF

/-- Strip leading and trailing whitespace, modelling `String.prototype.trim`. -/
def trimChars (cs : List Char) : List Char :=
  ((cs.dropWhile isWsChar).reverse.dropWhile isWsChar).reverse

/-- Model of `range.trim()`. -/
def jsTrim (s : String) : String :=
  ⟨trimChars s.data⟩

/-- Split on a separator character, keeping empty pieces, as
`String.prototype.split(sep)` does. -/
def splitCharAux (sep : Char) : List Char → List Char → List (List Char)
  | [], acc => [acc.reverse]
  | c :: rest, acc =>
    if c = sep then acc.reverse :: splitCharAux sep rest []
    else splitCharAux sep rest (c :: acc)

def splitChar (sep : Char) (cs : List Char) : List (List Char) :=
  splitCharAux sep cs []

/-- Split on the two-character separator `||`, as `range.split("||")`. -/
def splitOrOr : List Char → List (List Char)
  | [] => [[]]
  | '|' :: '|' :: rest => [] :: splitOrOr rest
  | c :: rest =>
    match splitOrOr rest with
    | [] => [[c]]
    | p :: ps => (c :: p) :: ps

/-- Split on runs of whitespace, dropping empty tokens, as splitting a
comparator set on `\s+` does. -/
def splitWsAux : List Char → List Char → List (List Char)
  | [], acc => if acc = [] then [] else [acc.reverse]
  | c :: rest, acc =>
    if isWsChar c then
      if acc = [] then splitWsAux rest []
      else acc.reverse :: splitWsAux rest []
    else splitWsAux rest (c :: acc)

/-- Comparison operator of a primitive semver comparator. -/
inductive CompOp where
  | ge | gt | le | lt | eqOp
  deriving DecidableEq, Repr

/-- A primitive comparator, e.g. `>=1.2.0`.  Upper bounds that node-semver
desugars to `<X.Y.Z-0` are represented as strict `lt` on the bare triple,
which agrees with the pre-release bound on the pre-release-free versions
produced by `coerce`. -/
structure Comparator where
  op : CompOp
  ver : SemVer
  deriving DecidableEq, Repr

/-- Strict lexicographic order on version triples. -/
def svLt (a b : SemVer) : Bool :=
  if a.major < b.major then true
  else if b.major < a.major then false
  else if a.minor < b.minor then true
  else if b.minor < a.minor then false
  else decide (a.patch < b.patch)

/-- Satisfaction of one comparator by a version. -/
def compSat (v : SemVer) (c : Comparator) : Bool :=
  match c.op with
  | .ge => !svLt v c.ver
  | .gt => svLt c.ver v
  | .le => !svLt c.ver v
  | .lt => svLt v c.ver
  | .eqOp => v == c.ver

/-- One component of a (possibly partial) range version: a concrete number
or one of the wildcards `x`, `X`, `*`. -/
inductive XPart where
  | num : Nat → XPart
  | star : XPart
  deriving DecidableEq, Repr

/-- Parse one dotted component of a range version (`XRANGEIDENTIFIER`): a
strict numeric identifier whose value passes the `MAX_SAFE_INTEGER` check
of `SemVer` construction, or a wildcard. -/
def parseXPart (p : List Char) : Option XPart :=
  if p = ['x'] || p = ['X'] || p = ['*'] then some .star
  else if p ≠ [] && p.all Char.isDigit && validComponent p then
    some (.num (digitsToNat p))
  else none

/-- A character the leading `[v=\s]*` of `XRANGEPLAIN` may absorb inside a
whitespace-free token. -/
def verChar (c : Char) : Bool := c = 'v' || c = '='

/-- A character allowed in pre-release and build identifiers. -/
def idChar (c : Char) : Bool := c.isDigit || c.isAlpha || c = '-'

/-- One pre-release identifier: non-empty over `[0-9A-Za-z-]`, and free of
leading zeros when purely numeric. -/
def validPreId (ds : List Char) : Bool :=
  ds ≠ [] && ds.all idChar &&
    (!(ds.all Char.isDigit) || ds = ['0'] || ds.head? != some '0')

/-- One build identifier: non-empty over `[0-9A-Za-z-]`. -/
def validBuildId (ds : List Char) : Bool := ds ≠ [] && ds.all idChar

def validPre (cs : List Char) : Bool := (splitChar '.' cs).all validPreId

def validBuild (cs : List Char) : Bool := (splitChar '.' cs).all validBuildId

/-- A parsed range version (`XRANGEPLAIN`): one to three dotted components
after an optional `[v=]*` prefix, then optional pre-release and build
suffixes, which the grammar allows only after a third component.
`strict` records whether the prefix was at most a single `v`, as the
stricter `FULLPLAIN` of primitive comparators demands; `pre` records a
validated pre-release suffix. -/
structure RangeVer where
  strict : Bool
  parts : List XPart
  pre : Bool
  deriving Repr

/-- Parse a whitespace-free range version token body. -/
def parseRangeVer (cs : List Char) : Option RangeVer :=
  let pref := cs.takeWhile verChar
  let rest := cs.dropWhile verChar
  let strict : Bool := pref = [] || pref = ['v']
  let main := rest.takeWhile (fun c => c ≠ '-' && c ≠ '+')
  let suff := rest.dropWhile (fun c => c ≠ '-' && c ≠ '+')
  match (splitChar '.' main).mapM parseXPart with
  | none => none
  | some ps =>
    if ps.length > 3 then none
    else
      match suff with
      | [] => some ⟨strict, ps, false⟩
      | '-' :: pr =>
        let preIds := pr.takeWhile (fun c => c ≠ '+')
        let bsuf := pr.dropWhile (fun c => c ≠ '+')
        if ps.length = 3 && validPre preIds &&
            (match bsuf with
             | [] => true
             | '+' :: b => validBuild b
             | _ => false) then
          some ⟨strict, ps, true⟩
        else none
      | '+' :: b =>
        if ps.length = 3 && validBuild b then some ⟨strict, ps, false⟩ else none
      | _ => none

/-- Pad missing components to wildcards: an absent minor or patch behaves
as `x` in every desugaring (`isX` treats `undefined` as a wildcard). -/
def padParts : List XPart → Option (XPart × XPart × XPart)
  | [a] => some (a, .star, .star)
  | [a, b] => some (a, b, .star)
  | [a, b, c] => some (a, b, c)
  | _ => none

/-- Increment a desugared bound component; the result must again pass the
`MAX_SAFE_INTEGER` check of `SemVer` construction, else the rewritten
comparator throws and the whole range is invalid. -/
def bump (n : Nat) : Option Nat :=
  if n + 1 ≤ 9007199254740991 then some (n + 1) else none

/-- The comparator `<0.0.0-0`, satisfied by no version. -/
def neverComp : Comparator := ⟨.lt, ⟨0, 0, 0⟩⟩

/-- Desugar a primitive comparator over a full `M.m.p` version (the
`COMPARATOR` grammar over `FULLPLAIN`), evaluated for pre-release-free
candidates: a pre-release bound tightens `>` to the triple's `>=` and
`<=` to `<`, and equality against a pre-release version is unsatisfiable.
The strict `v?` prefix is required. -/
def fullComps (op : Option CompOp) (v : RangeVer) : Option (List Comparator) :=
  match padParts v.parts with
  | some (.num M, .num m, .num p) =>
    if !v.strict then none
    else
      match op with
      | none => some (if v.pre then [neverComp] else [⟨.eqOp, ⟨M, m, p⟩⟩])
      | some .eqOp => some (if v.pre then [neverComp] else [⟨.eqOp, ⟨M, m, p⟩⟩])
      | some .ge => some [⟨.ge, ⟨M, m, p⟩⟩]
      | some .gt => some (if v.pre then [⟨.ge, ⟨M, m, p⟩⟩] else [⟨.gt, ⟨M, m, p⟩⟩])
      | some .le => some (if v.pre then [⟨.lt, ⟨M, m, p⟩⟩] else [⟨.le, ⟨M, m, p⟩⟩])
      | some .lt => some [⟨.lt, ⟨M, m, p⟩⟩]
  | _ => none

/-- Desugar an optional primitive operator over a possibly partial version
(node-semver `replaceXRanges` with `includePrerelease`), delegating to
`fullComps` when no component is a wildcard: a wildcard major admits
everything (or nothing under `>`/`<`), `>` and `<=` bump the first
concrete component above the wildcard, and `=` over wildcards behaves as
no operator. -/
def xrangeComps (op : Option CompOp) (v : RangeVer) : Option (List Comparator) :=
  match padParts v.parts with
  | none => none
  | some (.star, _, _) =>
    match op with
    | some .gt => some [neverComp]
    | some .lt => some [neverComp]
    | _ => some []
  | some (.num M, .star, _) =>
    match op with
    | some .gt => do pure [⟨.ge, ⟨← bump M, 0, 0⟩⟩]
    | some .ge => some [⟨.ge, ⟨M, 0, 0⟩⟩]
    | some .le => do pure [⟨.lt, ⟨← bump M, 0, 0⟩⟩]
    | some .lt => some [⟨.lt, ⟨M, 0, 0⟩⟩]
    | _ => do pure [⟨.ge, ⟨M, 0, 0⟩⟩, ⟨.lt, ⟨← bump M, 0, 0⟩⟩]
  | some (.num M, .num m, .star) =>
    match op with
    | some .gt => do pure [⟨.ge, ⟨M, ← bump m, 0⟩⟩]
    | some .ge => some [⟨.ge, ⟨M, m, 0⟩⟩]
    | some .le => do pure [⟨.lt, ⟨M, ← bump m, 0⟩⟩]
    | some .lt => some [⟨.lt, ⟨M, m, 0⟩⟩]
    | _ => do pure [⟨.ge, ⟨M, m, 0⟩⟩, ⟨.lt, ⟨M, ← bump m, 0⟩⟩]
  | some (.num _, .num _, .num _) => fullComps op v

/-- Desugar a caret token (node-semver `replaceCaret`); the `[v=]*` prefix
is permitted, and a pre-release suffix does not move the bounds for
pre-release-free candidates. -/
def caretComps (v : RangeVer) : Option (List Comparator) :=
  match padParts v.parts with
  | none => none
  | some (.star, _, _) => some []
  | some (.num M, .star, _) => do
    pure [⟨.ge, ⟨M, 0, 0⟩⟩, ⟨.lt, ⟨← bump M, 0, 0⟩⟩]
  | some (.num M, .num m, .star) =>
    if M = 0 then do pure [⟨.ge, ⟨0, m, 0⟩⟩, ⟨.lt, ⟨0, ← bump m, 0⟩⟩]
    else do pure [⟨.ge, ⟨M, m, 0⟩⟩, ⟨.lt, ⟨← bump M, 0, 0⟩⟩]
  | some (.num M, .num m, .num p) =>
    if M > 0 then do pure [⟨.ge, ⟨M, m, p⟩⟩, ⟨.lt, ⟨← bump M, 0, 0⟩⟩]
    else if m > 0 then do pure [⟨.ge, ⟨0, m, p⟩⟩, ⟨.lt, ⟨0, ← bump m, 0⟩⟩]
    else do pure [⟨.ge, ⟨0, 0, p⟩⟩, ⟨.lt, ⟨0, 0, ← bump p⟩⟩]

/-- Desugar a tilde token (node-semver `replaceTilde`; `~>` is accepted as
`~`). -/
def tildeComps (v : RangeVer) : Option (List Comparator) :=
  match padParts v.parts with
  | none => none
  | some (.star, _, _) => some []
  | some (.num M, .star, _) => do
    pure [⟨.ge, ⟨M, 0, 0⟩⟩, ⟨.lt, ⟨← bump M, 0, 0⟩⟩]
  | some (.num M, .num m, .star) => do
    pure [⟨.ge, ⟨M, m, 0⟩⟩, ⟨.lt, ⟨M, ← bump m, 0⟩⟩]
  | some (.num M, .num m, .num p) => do
    pure [⟨.ge, ⟨M, m, p⟩⟩, ⟨.lt, ⟨M, ← bump m, 0⟩⟩]

/-- Desugar a hyphen range `A - B` (node-semver `hyphenReplace` with
`includePrerelease`): partial endpoints widen to component bounds, a full
upper endpoint without pre-release becomes the bound `< tM.tm.(tp+1)-0`
(inclusive of `tp` on pre-release-free versions), and one with a
pre-release an exclusive triple bound. -/
def hyphenComps (f t : RangeVer) : Option (List Comparator) := do
  let lo ←
    match padParts f.parts with
    | some (.star, _, _) => some []
    | some (.num M, .star, _) => some [⟨CompOp.ge, ⟨M, 0, 0⟩⟩]
    | some (.num M, .num m, .star) => some [⟨CompOp.ge, ⟨M, m, 0⟩⟩]
    | some (.num M, .num m, .num p) => some [⟨CompOp.ge, ⟨M, m, p⟩⟩]
    | none => none
  let hi ←
    match padParts t.parts with
    | some (.star, _, _) => some []
    | some (.num M, .star, _) => do pure [⟨CompOp.lt, ⟨← bump M, 0, 0⟩⟩]
    | some (.num M, .num m, .star) => do pure [⟨CompOp.lt, ⟨M, ← bump m, 0⟩⟩]
    | some (.num M, .num m, .num p) =>
      if t.pre then some [⟨CompOp.lt, ⟨M, m, p⟩⟩]
      else do pure [⟨CompOp.lt, ⟨M, m, ← bump p⟩⟩]
    | none => none
  pure (lo ++ hi)

/-- Delete every occurrence of the `STAR` pattern `(<|>)?=?\*` from a
token (node-semver `replaceStars`, applied after the other rewrites). -/
def deleteStars : List Char → List Char
  | [] => []
  | '<' :: '=' :: '*' :: rest => deleteStars rest
  | '>' :: '=' :: '*' :: rest => deleteStars rest
  | '<' :: '*' :: rest => deleteStars rest
  | '>' :: '*' :: rest => deleteStars rest
  | '=' :: '*' :: rest => deleteStars rest
  | '*' :: rest => deleteStars rest
  | c :: rest => c :: deleteStars rest

/-- Parse a token against the `COMPARATOR` grammar
`^((?:<|>)?=?)\s*(FULLPLAIN)?$`: an optional primitive operator and an
optional full version; a bare operator, or an emptied token, matches any
version. -/
def comparatorParse (t : List Char) : Option (List Comparator) :=
  match t with
  | [] => some []
  | '>' :: '=' :: r =>
    if r = [] then some [] else (parseRangeVer r).bind (fullComps (some .ge))
  | '<' :: '=' :: r =>
    if r = [] then some [] else (parseRangeVer r).bind (fullComps (some .le))
  | '>' :: r =>
    if r = [] then some [] else (parseRangeVer r).bind (fullComps (some .gt))
  | '<' :: r =>
    if r = [] then some [] else (parseRangeVer r).bind (fullComps (some .lt))
  | '=' :: r =>
    if r = [] then some [] else (parseRangeVer r).bind (fullComps (some .eqOp))
  | r => (parseRangeVer r).bind (fullComps none)

/-- Structured parse of one comparator token: caret, tilde (including
`~>`), or an optional primitive operator over a possibly partial version. -/
def structuredToken : List Char → Option (List Comparator)
  | '^' :: r => (parseRangeVer r).bind caretComps
  | '~' :: '>' :: r => (parseRangeVer r).bind tildeComps
  | '~' :: r => (parseRangeVer r).bind tildeComps
  | '>' :: '=' :: r => (parseRangeVer r).bind (xrangeComps (some .ge))
  | '<' :: '=' :: r => (parseRangeVer r).bind (xrangeComps (some .le))
  | '>' :: r => (parseRangeVer r).bind (xrangeComps (some .gt))
  | '<' :: r => (parseRangeVer r).bind (xrangeComps (some .lt))
  | '=' :: r => (parseRangeVer r).bind (xrangeComps (some .eqOp))
  | r => (parseRangeVer r).bind (xrangeComps none)

/-- Parse one comparator token of a range: the structured rewrites first
(`replaceCarets`, `replaceTildes`, `replaceXRanges`); a token they do not
recognize goes through star deletion (`replaceStars`) and the final
`COMPARATOR` grammar.  `none` makes the whole range invalid, on which
`semver.satisfies` returns `false`. -/
def parseToken (t : List Char) : Option (List Comparator) :=
  match structuredToken t with
  | some cs => some cs
  | none => comparatorParse (deleteStars t)

/-- Operator tokens that `COMPARATORTRIM` glues to a following version. -/
def isGtltTok (t : List Char) : Bool :=
  t = ['>'] || t = ['<'] || t = ['='] || t = ['>', '='] || t = ['<', '=']

/-- Tokens that `TILDETRIM` and `CARETTRIM` glue to whatever follows. -/
def isTildeCaretTok (t : List Char) : Bool :=
  t = ['~'] || t = ['~', '>'] || t = ['^']

/-- The whitespace-collapsing rewrites `COMPARATORTRIM`, `TILDETRIM` and
`CARETTRIM`: a lone primitive operator is glued to a following version
token, and a lone tilde or caret to whatever token follows (when the next
token is not version-shaped the glued or unglued forms are both invalid,
so the version side-condition is harmless for the tilde and caret). -/
def joinOps : List (List Char) → List (List Char)
  | [] => []
  | [t] => [t]
  | t :: u :: rest =>
    if isTildeCaretTok t || (isGtltTok t && (parseRangeVer u).isSome) then
      (t ++ u) :: joinOps rest
    else t :: joinOps (u :: rest)

/-- A token consisting solely of the `v`/`=` junk that the leading
`[v=\s]*` of `XRANGEPLAIN` absorbs across whitespace. -/
def isVEqJunk (t : List Char) : Bool := t ≠ [] && t.all verChar

/-- Recognize the anchored `HYPHENRANGE` shape
`^\s*XRANGEPLAIN\s+-\s+XRANGEPLAIN\s*$` at token level: each endpoint may
be preceded by whitespace-separated `v`/`=` junk that its leading prefix
absorbs. -/
def hyphenSplit (toks : List (List Char)) : Option (List Char × List Char) :=
  match toks.dropWhile isVEqJunk with
  | a :: m :: rest =>
    if m = ['-'] then
      match rest.dropWhile isVEqJunk with
      | [b] => some (a, b)
      | _ => none
    else none
  | _ => none

/-- Parse one `||`-alternative of a range: a hyphen range when the
alternative has that shape (checked before the trim-joins, as in the
library), otherwise whitespace-separated comparator tokens, all of which
must hold.  An empty comparator set matches any version. -/
def parseCompSet (cs : List Char) : Option (List Comparator) :=
  let toks := splitWsAux cs []
  let normal := fun (ts : List (List Char)) =>
    ((joinOps ts).mapM parseToken).map fun ls => ls.foldr (· ++ ·) []
  match hyphenSplit toks with
  | some (a, b) =>
    match parseRangeVer a, parseRangeVer b with
    | some fv, some tv => hyphenComps fv tv
    | _, _ => normal toks
  | none => normal toks

/-- Parse a range string into its `||`-alternatives. -/
def parseRange (r : String) : Option (List (List Comparator)) :=
  (splitOrOr r.data).mapM fun part => parseCompSet (trimChars part)

/-- Model of `semver.satisfies(ver, range, { includePrerelease: true })`
for the pre-release-free versions produced by `coerce`.  The grammar
covers `||`-alternatives, hyphen ranges, caret and tilde tokens, x-ranges,
primitive comparators over full or partial versions, pre-release and
build suffixes in bounds, the whitespace trims that glue operators to a
following version, lone-operator comparators (which match any version),
and the final star deletion.  On pre-release-free candidates the
`includePrerelease` option does not alter comparator outcomes, and the
desugared `-0` upper bounds coincide with strict triple comparison.
Invalid ranges yield `false` (the library catches the parse error). -/
def semverSatisfies (range : String) (v : SemVer) : Bool :=
  match parseRange range with
  | none => false
  | some alts => alts.any fun comps => comps.all (compSat v)

/-- The filter predicate of `matchBadRules` (src/index.js lines 219-225):
a trimmed pattern of `*` always matches, anything else is evaluated as a
range against the coerced version. -/
def patternMatches (v : SemVer) (range : String) : Bool :=
  let trimmed := jsTrim range
  if trimmed = "*" then true else semverSatisfies trimmed v

/-- The body of `matchBadRules` once `rules[packageName]` has produced an
own-property pattern array (src/index.js lines 206-227): the emptiness
guard, the non-empty-string guard on the version, coercion with the
wildcard fallback, and the filter over all patterns.  On an array value
these steps call only array methods and cannot throw. -/
def matchPkgRules (pkgRules : List String) (version : JSValue) : Option (List String) :=
  if pkgRules.isEmpty then none
  else
    match version with
    | .vStr s =>
      if s = "" then none
      else
        match coerce s with
        | none =>
          if pkgRules.any (fun r => jsTrim r = "*") then some ["*"] else none
        | some v =>
          let matchedRanges := pkgRules.filter (patternMatches v)
          if matchedRanges.isEmpty then none else some matchedRanges
    | _ => none

/-- Model of `matchBadRules(packageName, version, rules)` (src/index.js
lines 204-228) on the fragment where `packageName` does not collide with a
member name of `Object.prototype`, so that the property read
`rules[packageName]` yields the own pattern array or `undefined`.
`matchBadRulesE` below models the general read, whose prototype-chain hits
can throw. -/
def matchBadRules (packageName : String) (version : JSValue) (rules : RuleSet) :
    Option (List String) :=
  match lookupRule rules packageName with
  | none => none
  | some pkgRules => matchPkgRules pkgRules version

/-- Earliest position in the next-to-last path segment where a scope group
`@[^/]+/` can start: the first `@` that is followed by at least one more
character of the segment. -/
def scopeSuffix : List Char → Option (List Char)
  | [] => none
  | c :: rest =>
    if c = '@' ∧ rest ≠ [] then some (c :: rest)
    else scopeSuffix rest

/-- One of the four JavaScript LineTerminator characters, which the regex
metacharacter `.` never matches (the negated class `[^\/]` does). -/
def isLineTerm (c : Char) : Bool :=
  c = '\n' || c = '\r' || c = '\u2028' || c = '\u2029'

/-- Model of the key normalization
`rawKey.replace(/^.*?((?:@[^\/]+\/)?[^\/]+)$/, "$1")` (src/index.js line
258).  The anchored pattern with a lazy prefix captures, at the earliest
possible start, an optional `@scope/` group followed by the final
slash-free segment; when the whole pattern cannot match, `replace` leaves
the key unchanged.  The pattern cannot match when the key is empty or ends
in `/`, and also when a LineTerminator occurs before the capture's start:
`.` does not match line terminators, while the negated classes inside the
capture do (so terminators inside the captured segments are fine, and the
earliest capture start is the decisive position).  A capture containing a
slash must begin at an `@` located in the next-to-last segment, so the
capture is the final segment, preceded by the suffix of the next-to-last
segment from its first eligible `@` when one exists. -/
def normalizeKey (raw : String) : String :=
  let cs := raw.data
  if cs = [] ∨ cs.getLast? = some '/' then raw
  else
    match (splitChar '/' cs).reverse with
    | [] => raw
    | [_] => raw
    | last :: prev :: _ =>
      match scopeSuffix prev with
      | some sfx =>
        if (cs.take (cs.length - (sfx.length + 1 + last.length))).any isLineTerm then raw
        else ⟨sfx ++ '/' :: last⟩
      | none =>
        if (cs.take (cs.length - last.length)).any isLineTerm then raw
        else ⟨last⟩

/-- One reported occurrence of a bad package, as pushed into `findings`.
`name` and `version` hold the raw JSON values the walker used (the
child-map check pushes the normalized key as a string name). -/
structure Finding where
  file : String
  location : String
  name : JSValue
  version : JSValue
  matchedRanges : List String

/-- The dotted-path extension `pathSoFar ? pathSoFar + "." + key : key`. -/
def joinPath (path key : String) : String :=
  if path = "" then key else path ++ "." ++ key

/-- The child-map check body (src/index.js lines 263-274) on the
prototype-free fragment: if the normalized key is an own property of the
rules (`rules[key]` is an array, hence truthy even when empty) and the
child value carries a truthy `version` property, a match is attempted on
the key and that version.  `childMapFindingE` below models the general
read, whose prototype-chain hits can throw. -/
def childMapFinding (rules : RuleSet) (file key : String) (value : JSValue)
    (childPath : String) : List Finding :=
  if (lookupRule rules key).isSome then
    match value.nodeGet "version" with
    | some ver =>
      if ver.truthy then
        match matchBadRules key ver rules with
        | some mr => [⟨file, childPath, .vStr key, ver, mr⟩]
        | none => []
      else []
    | none => []
  else []

/-- The self-check of an object node (src/index.js lines 241-252): when
the node has truthy `name` and `version` properties, attempt a match on
them; a missing property is `undefined`, which is falsy. -/
def selfCheck (rules : RuleSet) (file : String)
    (fields : List (String × JSValue)) (path : String) : List Finding :=
  match JSValue.fieldLookup fields "name", JSValue.fieldLookup fields "version" with
  | some nm, some ver =>
    if nm.truthy && ver.truthy then
      match matchBadRules nm.jsToString ver rules with
      | some mr => [⟨file, if path = "" then "<root>" else path, nm, ver, mr⟩]
      | none => []
    else []
  | _, _ => []

mutual
/-- The recursive `visit(node, pathSoFar)` of `scanPackageLock`
(src/index.js lines 237-279).  Non-objects (and `null`) are ignored; the
self-check runs first (it never fires on arrays, which have no `name` or
`version` properties); then every object-valued entry of
`Object.entries(node)` is checked against the rules and recursed into,
with the path extended by the normalized key.  For arrays the entries are
the elements keyed by their decimal indices.  This is the prototype-free
fragment (no key or rule name collides with an `Object.prototype`
member); the general walker is `visitE` below. -/
def visit (rules : RuleSet) (file : String) : JSValue → String → List Finding
  | .vObj fields, path =>
    selfCheck rules file fields path ++ visitFields rules file fields path
  | .vArr xs, path => visitArr rules file xs 0 path
  | _, _ => []

/-- The `Object.entries` loop of `visit` over an object's fields. -/
def visitFields (rules : RuleSet) (file : String) :
    List (String × JSValue) → String → List Finding
  | [], _ => []
  | (rawKey, value) :: rest, path =>
    (if value.objectLike then
      childMapFinding rules file (normalizeKey rawKey) value
          (joinPath path (normalizeKey rawKey)) ++
        visit rules file value (joinPath path (normalizeKey rawKey))
    else []) ++ visitFields rules file rest path

/-- The `Object.entries` loop of `visit` over an array's elements, whose
keys are the decimal renderings of their indices. -/
def visitArr (rules : RuleSet) (file : String) :
    List JSValue → Nat → String → List Finding
  | [], _, _ => []
  | value :: restArr, i, path =>
    (if value.objectLike then
      childMapFinding rules file (normalizeKey (Nat.repr i)) value
          (joinPath path (normalizeKey (Nat.repr i))) ++
        visit rules file value (joinPath path (normalizeKey (Nat.repr i)))
    else []) ++ visitArr rules file restArr (i + 1) path
end

/-- Model of `scanPackageLock(json, file, rules)` (src/index.js lines
234-283) on the prototype-free fragment: run the walker from the root with
the empty path and return the accumulated findings in discovery order.
`scanPackageLockE` below is the general model; `scanPackageLockE_ok_eq`
shows the two agree whenever the general scan returns normally. -/
def scanPackageLock (json : JSValue) (file : String) (rules : RuleSet) : List Finding :=
  visit rules file json ""

/-- The `Object.entries` keys of an array's elements: decimal indices. -/
def enumEntries : Nat → List JSValue → List (String × JSValue)
  | _, [] => []
  | i, x :: xs => (Nat.repr i, x) :: enumEntries (i + 1) xs

/-- The key/value pairs `Object.entries(node)` yields on a JSON value:
object fields in order, array elements keyed by decimal index, nothing for
scalars. -/
def jsEntries : JSValue → List (String × JSValue)
  | .vObj fs => fs
  | .vArr xs => enumEntries 0 xs
  | _ => []

/-- The walker's descent relation: `Reaches node path target tpath` holds
when, starting from `node` at location `path`, the recursion of `visit`
eventually calls itself on `target` at location `tpath` (reflexively
including the start).  Each step follows one object-valued entry, with the
path extended by the normalized key, exactly as `visit` recurses. -/
inductive Reaches : JSValue → String → JSValue → String → Prop where
  | refl (node : JSValue) (path : String) : Reaches node path node path
  | child {node : JSValue} {path : String} {value target : JSValue} {tpath : String}
      (rawKey : String)
      (hmem : (rawKey, value) ∈ jsEntries node)
      (hobj : value.objectLike = true)
      (h : Reaches value (joinPath path (normalizeKey rawKey)) target tpath) :
      Reaches node path target tpath

/-- An inherited `Object.prototype` member that the property read
`rules[name]` finds when `name` has no own entry: one of the prototype
methods (with the arity its `.length` reports), or, through the
`__proto__` accessor, `Object.prototype` itself, which has no `length`
property. -/
inductive ProtoHit where
  | fn : Nat → ProtoHit
  | obj : ProtoHit
  deriving DecidableEq, Repr

/-- The own properties of `Object.prototype` in Node, with the arity that
each method reports through `.length` (`constructor` is the `Object`
function, of arity 1). -/
def protoLookup : String → Option ProtoHit
  | "constructor" => some (.fn 1)
  | "hasOwnProperty" => some (.fn 1)
  | "isPrototypeOf" => some (.fn 1)
  | "propertyIsEnumerable" => some (.fn 1)
  | "toLocaleString" => some (.fn 0)
  | "toString" => some (.fn 0)
  | "valueOf" => some (.fn 0)
  | "__defineGetter__" => some (.fn 2)
  | "__defineSetter__" => some (.fn 2)
  | "__lookupGetter__" => some (.fn 1)
  | "__lookupSetter__" => some (.fn 1)
  | "__proto__" => some .obj
  | _ => none

/-- The value of the property read `rules[name]` with the prototype chain:
an own pattern array, an inherited `Object.prototype` member, or
`undefined`. -/
inductive RuleVal where
  | missing : RuleVal
  | own : List String → RuleVal
  | proto : ProtoHit → RuleVal

def lookupRuleJS (rules : RuleSet) (name : String) : RuleVal :=
  match lookupRule rules name with
  | some pats => .own pats
  | none =>
    match protoLookup name with
    | some h => .proto h
    | none => .missing

/-- Truthiness of `rules[key]`: arrays (even empty ones) and all inherited
members are truthy; only `undefined` is falsy. -/
def ruleValTruthy : RuleVal → Bool
  | .missing => false
  | _ => true

/-- Whether the `pkgRules.length === 0` guard stops an inherited value:
true exactly for the arity-0 prototype methods; `Object.prototype` itself
has no `length`, and `undefined === 0` is false. -/
def protoLenIsZero : ProtoHit → Bool
  | .fn 0 => true
  | _ => false

/-- Full model of `matchBadRules`, including the prototype chain of the
`rules[packageName]` read.  An own array runs the array-only body
`matchPkgRules`.  An inherited member is truthy, so the `!pkgRules` guard
passes; arity-0 methods are stopped by `pkgRules.length === 0`; any other
hit survives both guards, and once the version passes its own guards,
`pkgRules.some` (uncoercible version) or `pkgRules.filter` (coerced
version) is called on a non-array and throws a `TypeError`, modelled as
`Except.error`. -/
def matchBadRulesE (packageName : String) (version : JSValue) (rules : RuleSet) :
    Except String (Option (List String)) :=
  match lookupRuleJS rules packageName with
  | .missing => .ok none
  | .own pkgRules => .ok (matchPkgRules pkgRules version)
  | .proto h =>
    if protoLenIsZero h then .ok none
    else
      match version with
      | .vStr s =>
        if s = "" then .ok none
        else
          match coerce s with
          | none => .error "TypeError: pkgRules.some is not a function"
          | some _ => .error "TypeError: pkgRules.filter is not a function"
      | _ => .ok none

/-- The child-map check with the faithful lookup: `rules[key]` is truthy
for inherited members too, so the guard passes and the match can throw. -/
def childMapFindingE (rules : RuleSet) (file key : String) (value : JSValue)
    (childPath : String) : Except String (List Finding) :=
  if ruleValTruthy (lookupRuleJS rules key) then
    match value.nodeGet "version" with
    | some ver =>
      if ver.truthy then
        match matchBadRulesE key ver rules with
        | .error e => .error e
        | .ok (some mr) => .ok [⟨file, childPath, .vStr key, ver, mr⟩]
        | .ok none => .ok []
      else .ok []
    | none => .ok []
  else .ok []

/-- The self-check with the faithful match: a node whose own `name` value
is an `Object.prototype` member name can make the match throw. -/
def selfCheckE (rules : RuleSet) (file : String)
    (fields : List (String × JSValue)) (path : String) :
    Except String (List Finding) :=
  match JSValue.fieldLookup fields "name", JSValue.fieldLookup fields "version" with
  | some nm, some ver =>
    if nm.truthy && ver.truthy then
      match matchBadRulesE nm.jsToString ver rules with
      | .error e => .error e
      | .ok (some mr) =>
        .ok [⟨file, if path = "" then "<root>" else path, nm, ver, mr⟩]
      | .ok none => .ok []
    else .ok []
  | _, _ => .ok []

mutual
/-- The recursive walker with the faithful lookup.  A thrown `TypeError`
propagates out of `scanPackageLock` — there is no try/catch inside it — so
the whole scan aborts, no finding list is returned, and `run()` marks the
run failed. -/
def visitE (rules : RuleSet) (file : String) :
    JSValue → String → Except String (List Finding)
  | .vObj fields, path =>
    match selfCheckE rules file fields path with
    | .error e => .error e
    | .ok fs1 =>
      match visitFieldsE rules file fields path with
      | .error e => .error e
      | .ok fs2 => .ok (fs1 ++ fs2)
  | .vArr xs, path => visitArrE rules file xs 0 path
  | _, _ => .ok []

def visitFieldsE (rules : RuleSet) (file : String) :
    List (String × JSValue) → String → Except String (List Finding)
  | [], _ => .ok []
  | (rawKey, value) :: rest, path =>
    if value.objectLike then
      match childMapFindingE rules file (normalizeKey rawKey) value
          (joinPath path (normalizeKey rawKey)) with
      | .error e => .error e
      | .ok fs1 =>
        match visitE rules file value (joinPath path (normalizeKey rawKey)) with
        | .error e => .error e
        | .ok fs2 =>
          match visitFieldsE rules file rest path with
          | .error e => .error e
          | .ok fs3 => .ok (fs1 ++ fs2 ++ fs3)
    else visitFieldsE rules file rest path

def visitArrE (rules : RuleSet) (file : String) :
    List JSValue → Nat → String → Except String (List Finding)
  | [], _, _ => .ok []
  | value :: restArr, i, path =>
    if value.objectLike then
      match childMapFindingE rules file (normalizeKey (Nat.repr i)) value
          (joinPath path (normalizeKey (Nat.repr i))) with
      | .error e => .error e
      | .ok fs1 =>
        match visitE rules file value (joinPath path (normalizeKey (Nat.repr i))) with
        | .error e => .error e
        | .ok fs2 =>
          match visitArrE rules file restArr (i + 1) path with
          | .error e => .error e
          | .ok fs3 => .ok (fs1 ++ fs2 ++ fs3)
    else visitArrE rules file restArr (i + 1) path
end

/-- Full model of `scanPackageLock(json, file, rules)`, prototype-chain
lookups and the resulting aborts included.  `scanPackageLockE_ok_eq`
shows a scan that completes agrees with the prototype-free fragment
`scanPackageLock`. -/
def scanPackageLockE (json : JSValue) (file : String) (rules : RuleSet) :
    Except String (List Finding) :=
  visitE rules file json ""


/-! ## Claim theorems -/

/-- C1 (code_bug evidence).  A rule feed containing a non-array top-level
entry does not produce a RuleSet: the warning branch of
`loadBadDependencyRules` evaluates a template literal that reads the
undeclared variable `pkg`, so normalization throws a `ReferenceError`
instead of skipping the entry, and the surrounding `run()` marks the whole
run failed.  The claim (skip with a warning, continue, return a RuleSet)
describes the code's evident intent, not its behavior. -/
theorem c1_nonarray_entry_aborts_normalization :
    loadBadDependencyRules [.vArr [.vStr "@acme/bad", .vStr "1.0.*"], .vStr "oops"] =
      .error "ReferenceError: pkg is not defined" := rfl

/-- C6.  Normalizing the feed `[["@acme/bad","1.0.*"],["@acme/bad","^1.1.2"]]`
merges the two entries for the same package into a single RuleSet entry
whose pattern list concatenates both pattern lists in encounter order. -/
theorem c6_duplicate_names_merge_in_order :
    loadBadDependencyRules
        [.vArr [.vStr "@acme/bad", .vStr "1.0.*"], .vArr [.vStr "@acme/bad", .vStr "^1.1.2"]] =
      .ok [("@acme/bad", ["1.0.*", "^1.1.2"])] := rfl

/-- C2.  Key normalization keeps the final path segment together with an
immediately preceding scope segment, and walking
`{"dependencies": {"node_modules/@acme/bad": {"version": "1.0.2"}}}`
against `{"@acme/bad": ["1.0.*","^1.1.2"]}` yields exactly one Finding at
`dependencies.@acme/bad` with name `@acme/bad`, version `1.0.2`, and
matched ranges `["1.0.*"]`. -/
theorem c2_scope_normalization_and_walk :
    normalizeKey "node_modules/@acme/bad" = "@acme/bad" ∧
    normalizeKey "node_modules/foo" = "foo" ∧
    scanPackageLock
        (.vObj [("dependencies",
          .vObj [("node_modules/@acme/bad", .vObj [("version", .vStr "1.0.2")])])])
        "package-lock.json" [("@acme/bad", ["1.0.*", "^1.1.2"])] =
      [{ file := "package-lock.json", location := "dependencies.@acme/bad",
         name := .vStr "@acme/bad", version := .vStr "1.0.2",
         matchedRanges := ["1.0.*"] }] :=
  ⟨rfl, rfl, rfl⟩

/-- C8.  The walker is deterministic: two runs of `scanPackageLock` over
equal documents, file paths, and RuleSets produce equal Finding sequences.
In this embedding the walker is a pure function of its arguments, so
determinism holds definitionally. -/
theorem c8_scan_deterministic :
    ∀ (d₁ d₂ : JSValue) (f₁ f₂ : String) (r₁ r₂ : RuleSet),
      d₁ = d₂ → f₁ = f₂ → r₁ = r₂ →
      scanPackageLock d₁ f₁ r₁ = scanPackageLock d₂ f₂ r₂ := by
  intro d₁ d₂ f₁ f₂ r₁ r₂ hd hf hr
  rw [hd, hf, hr]

/-- Witness for C8 at a concrete document, file, and RuleSet. -/
theorem c8_scan_deterministic_witness :
    scanPackageLock (.vObj [("version", .vStr "1.0.2")]) "package-lock.json"
        [("@acme/bad", ["1.0.*"])] =
      scanPackageLock (.vObj [("version", .vStr "1.0.2")]) "package-lock.json"
        [("@acme/bad", ["1.0.*"])] :=
  c8_scan_deterministic _ _ _ _ _ _ rfl rfl rfl

/-- C3 counterexample.  The claim quantifies over every version string on
which coercion fails, but the empty string is rejected by the truthiness
guard `!version` before the wildcard fallback runs: coercion fails on
`""`, the package has a wildcard pattern (`"*".trim()` is `"*"`), yet
`match` returns none rather than `["*"]`. -/
theorem c3_counterexample_empty_version :
    coerce "" = none ∧
    jsTrim "*" = "*" ∧
    lookupRule [("evil-package", ["*"])] "evil-package" = some ["*"] ∧
    matchBadRules "evil-package" (.vStr "") [("evil-package", ["*"])] = none ∧
    matchBadRules "evil-package" (.vStr "") [("evil-package", ["*"])] ≠ some ["*"] := by
  refine ⟨rfl, rfl, rfl, rfl, ?_⟩
  decide

/-- C3 (amended).  For every package name with at least one rule pattern
and every NON-EMPTY version string on which semver coercion fails: if some
pattern for that package, after trimming whitespace, is exactly `*`, then
match returns `["*"]`; otherwise match returns none.  (The original claim
also covered the empty version string, on which match returns none even
with a wildcard pattern, because the non-empty-string guard runs first.) -/
theorem c3_wildcard_fallback_on_uncoercible :
    ∀ (rules : RuleSet) (name s : String) (pkgRules : List String),
      lookupRule rules name = some pkgRules → pkgRules ≠ [] →
      s ≠ "" → coerce s = none →
      matchBadRules name (.vStr s) rules =
        if pkgRules.any (fun r => jsTrim r = "*") then some ["*"] else none := by
  intro rules name s pkgRules hlook hne hs hco
  unfold matchBadRules
  rw [hlook]
  have hie : pkgRules.isEmpty = false := by
    simpa [List.isEmpty_iff] using hne
  simp [matchPkgRules, hie, hs, hco]

/-- Witness for C3 (amended): an uncoercible, non-empty version string and
a wildcard rule produce the single-element match `["*"]`. -/
theorem c3_wildcard_fallback_witness :
    lookupRule [("evil-package", ["*"])] "evil-package" = some ["*"] ∧
    (["*"] : List String) ≠ [] ∧
    ("not-a-version" : String) ≠ "" ∧
    coerce "not-a-version" = none ∧
    matchBadRules "evil-package" (.vStr "not-a-version") [("evil-package", ["*"])] =
      some ["*"] := by
  refine ⟨rfl, by decide, by decide, rfl, ?_⟩
  have h := c3_wildcard_fallback_on_uncoercible [("evil-package", ["*"])]
    "evil-package" "not-a-version" ["*"] rfl (by decide) (by decide) rfl
  simpa using h

/-- C4.  Whenever the pattern `^1.1.2` is among a package's rules, matching
the version string `1.1.2-beta.1` succeeds and the matched-range list
contains `^1.1.2`: coercion extracts `1.1.2`, and the range check (run
with pre-release versions included) accepts it. -/
theorem c4_caret_matches_prerelease_version :
    ∀ (rules : RuleSet) (name : String) (pkgRules : List String),
      lookupRule rules name = some pkgRules → "^1.1.2" ∈ pkgRules →
      ∃ ms, matchBadRules name (.vStr "1.1.2-beta.1") rules = some ms ∧ "^1.1.2" ∈ ms := by
  intro rules name pkgRules hlook hmem
  have hco : coerce "1.1.2-beta.1" = some ⟨1, 1, 2⟩ := rfl
  have hpm : patternMatches ⟨1, 1, 2⟩ "^1.1.2" = true := by decide
  have hmemf : "^1.1.2" ∈ pkgRules.filter (patternMatches ⟨1, 1, 2⟩) :=
    List.mem_filter.mpr ⟨hmem, hpm⟩
  have hie : pkgRules.isEmpty = false := by
    simp [List.isEmpty_iff]
    rintro rfl
    exact List.not_mem_nil _ hmem
  have hfe : (pkgRules.filter (patternMatches ⟨1, 1, 2⟩)).isEmpty = false := by
    simpa [List.isEmpty_iff] using List.ne_nil_of_mem hmemf
  refine ⟨pkgRules.filter (patternMatches ⟨1, 1, 2⟩), ?_, hmemf⟩
  unfold matchBadRules
  rw [hlook]
  simp [matchPkgRules, hie, hco, hfe]

/-- Witness for C4 at the concrete RuleSet `{"@acme/bad": ["^1.1.2"]}`. -/
theorem c4_caret_matches_prerelease_witness :
    lookupRule [("@acme/bad", ["^1.1.2"])] "@acme/bad" = some ["^1.1.2"] ∧
    "^1.1.2" ∈ (["^1.1.2"] : List String) ∧
    ∃ ms, matchBadRules "@acme/bad" (.vStr "1.1.2-beta.1") [("@acme/bad", ["^1.1.2"])] =
        some ms ∧ "^1.1.2" ∈ ms :=
  ⟨rfl, by decide,
    c4_caret_matches_prerelease_version [("@acme/bad", ["^1.1.2"])] "@acme/bad"
      ["^1.1.2"] rfl (by decide)⟩

/-- Strong induction over JSON values, giving the inductive hypothesis for
every element of an array and every field value of an object. -/
theorem JSValue.strongInduction {P : JSValue → Prop}
    (hnull : P .vNull) (hbool : ∀ b, P (.vBool b)) (hnum : ∀ n, P (.vNum n))
    (hstr : ∀ s, P (.vStr s))
    (harr : ∀ xs, (∀ x ∈ xs, P x) → P (.vArr xs))
    (hobj : ∀ fs, (∀ kv ∈ fs, P kv.2) → P (.vObj fs)) :
    ∀ v, P v := by
  have H : ∀ (n : Nat) (v : JSValue), sizeOf v ≤ n → P v := by
    intro n
    induction n with
    | zero =>
      intro v h
      cases v <;> simp_arith at h
    | succ n ih =>
      intro v h
      cases v with
      | vNull => exact hnull
      | vBool b => exact hbool b
      | vNum m => exact hnum m
      | vStr s => exact hstr s
      | vArr xs =>
        refine harr xs fun x hx => ih x ?_
        have h1 := List.sizeOf_lt_of_mem hx
        simp_arith at h
        omega
      | vObj fs =>
        refine hobj fs fun kv hkv => ih kv.2 ?_
        have h1 := List.sizeOf_lt_of_mem hkv
        have h2 : sizeOf kv.2 < sizeOf kv := by
          obtain ⟨a, b⟩ := kv
          simp_arith
        simp_arith at h
        omega
  exact fun v => H (sizeOf v) v (Nat.le_refl _)

theorem matchBadRulesE_ok_eq :
    ∀ (name : String) (version : JSValue) (rules : RuleSet) (r : Option (List String)),
      matchBadRulesE name version rules = .ok r →
      r = matchBadRules name version rules := by
  intro name version rules r h
  unfold matchBadRulesE lookupRuleJS at h
  unfold matchBadRules
  cases hl : lookupRule rules name with
  | some pats => simp_all
  | none =>
    cases hp : protoLookup name with
    | none => simp_all
    | some ph =>
      by_cases hz : protoLenIsZero ph = true
      · simp_all
      · cases version with
        | vStr s =>
          by_cases hs : s = ""
          · simp_all
          · cases hc : coerce s with
            | none => simp_all
            | some v => simp_all
        | vNull => simp_all
        | vBool b => simp_all
        | vNum n => simp_all
        | vArr xs => simp_all
        | vObj ofs => simp_all

theorem childMapFindingE_ok_eq :
    ∀ (rules : RuleSet) (file key : String) (value : JSValue) (cp : String)
      (fs : List Finding),
      childMapFindingE rules file key value cp = .ok fs →
      fs = childMapFinding rules file key value cp := by
  intro rules file key value cp fs h
  unfold childMapFindingE at h
  unfold childMapFinding
  by_cases hg : ruleValTruthy (lookupRuleJS rules key) = true
  case neg =>
    rw [if_neg hg] at h
    have hl : lookupRule rules key = none := by
      cases hl2 : lookupRule rules key with
      | none => rfl
      | some pats => rw [lookupRuleJS, hl2] at hg; exact absurd rfl hg
    simp at h
    simp [hl, h.symm]
  case pos =>
    rw [if_pos hg] at h
    cases hv : value.nodeGet "version" with
    | none =>
      simp [hv] at h
      simp [hv, h.symm]
    | some ver =>
      by_cases ht : ver.truthy = true
      case neg =>
        simp [hv, ht] at h
        simp [hv, ht, h.symm]
      case pos =>
        cases hm : matchBadRulesE key ver rules with
        | error e => simp [hv, ht, hm] at h
        | ok r =>
          have hr := matchBadRulesE_ok_eq key ver rules r hm
          cases r with
          | none =>
            simp [hv, ht, hm] at h
            simp [hv, ht, ← hr, h.symm]
          | some mr =>
            simp [hv, ht, hm] at h
            have hiss : (lookupRule rules key).isSome = true := by
              cases hl2 : lookupRule rules key with
              | none =>
                exfalso
                unfold matchBadRules at hr
                rw [hl2] at hr
                cases hr
              | some pats => rfl
            simp [hiss, hv, ht, ← hr, h.symm]

theorem selfCheckE_ok_eq :
    ∀ (rules : RuleSet) (file : String) (fields : List (String × JSValue))
      (path : String) (fs : List Finding),
      selfCheckE rules file fields path = .ok fs →
      fs = selfCheck rules file fields path := by
  intro rules file fields path fs h
  unfold selfCheckE at h
  unfold selfCheck
  cases hn : JSValue.fieldLookup fields "name" with
  | none =>
    simp [hn] at h
    simp [hn, h.symm]
  | some nm =>
    cases hv : JSValue.fieldLookup fields "version" with
    | none =>
      simp [hn, hv] at h
      simp [hn, hv, h.symm]
    | some ver =>
      by_cases ht : (nm.truthy && ver.truthy) = true
      case neg =>
        simp only [hn, hv] at h
        rw [if_neg ht] at h
        simp at h
        simp only [hn, hv]
        rw [if_neg ht]
        exact h
      case pos =>
        cases hm : matchBadRulesE nm.jsToString ver rules with
        | error e => simp [hn, hv, ht, hm] at h
        | ok r =>
          have hr := matchBadRulesE_ok_eq nm.jsToString ver rules r hm
          cases r with
          | none =>
            simp [hn, hv, ht, hm] at h
            simp [hn, hv, ht, ← hr, h.symm]
          | some mr =>
            simp [hn, hv, ht, hm] at h
            simp [hn, hv, ht, ← hr, h.symm]

theorem visitFieldsE_ok_eq (rules : RuleSet) (file : String) :
    ∀ (fs : List (String × JSValue)) (path : String) (out : List Finding),
      (∀ kv ∈ fs, ∀ (p : String) (o : List Finding),
        visitE rules file kv.2 p = .ok o → o = visit rules file kv.2 p) →
      visitFieldsE rules file fs path = .ok out →
      out = visitFields rules file fs path := by
  intro fs
  induction fs with
  | nil =>
    intro path out _ h
    simp only [visitFieldsE, Except.ok.injEq] at h
    rw [← h]
    rfl
  | cons kv rest ih =>
    intro path out hel h
    obtain ⟨rawKey, value⟩ := kv
    have hstepE : visitFieldsE rules file ((rawKey, value) :: rest) path =
        (if value.objectLike then
          match childMapFindingE rules file (normalizeKey rawKey) value
              (joinPath path (normalizeKey rawKey)) with
          | .error e => .error e
          | .ok fs1 =>
            match visitE rules file value (joinPath path (normalizeKey rawKey)) with
            | .error e => .error e
            | .ok fs2 =>
              match visitFieldsE rules file rest path with
              | .error e => .error e
              | .ok fs3 => .ok (fs1 ++ fs2 ++ fs3)
        else visitFieldsE rules file rest path) := rfl
    have hstepP : visitFields rules file ((rawKey, value) :: rest) path =
        (if value.objectLike then
          childMapFinding rules file (normalizeKey rawKey) value
              (joinPath path (normalizeKey rawKey)) ++
            visit rules file value (joinPath path (normalizeKey rawKey))
        else []) ++ visitFields rules file rest path := rfl
    have hrest : ∀ kv ∈ rest, ∀ (p : String) (o : List Finding),
        visitE rules file kv.2 p = .ok o → o = visit rules file kv.2 p :=
      fun kv hkv => hel kv (List.mem_cons_of_mem _ hkv)
    rw [hstepE] at h
    rw [hstepP]
    by_cases ho : value.objectLike = true
    case neg =>
      rw [if_neg ho] at h
      rw [if_neg ho, ih path _ hrest h]
      simp
    case pos =>
      rw [if_pos ho] at h
      rw [if_pos ho]
      cases hc : childMapFindingE rules file (normalizeKey rawKey) value
          (joinPath path (normalizeKey rawKey)) with
      | error e => rw [hc] at h; simp at h
      | ok fs1 =>
        rw [hc] at h
        cases hv : visitE rules file value (joinPath path (normalizeKey rawKey)) with
        | error e => rw [hv] at h; simp at h
        | ok fs2 =>
          rw [hv] at h
          cases hr : visitFieldsE rules file rest path with
          | error e => rw [hr] at h; simp at h
          | ok fs3 =>
            rw [hr] at h
            simp at h
            rw [← h, childMapFindingE_ok_eq _ _ _ _ _ _ hc,
              hel (rawKey, value) (List.mem_cons_self _ _) _ _ hv,
              ih path _ hrest hr]
            simp

theorem visitArrE_ok_eq (rules : RuleSet) (file : String) :
    ∀ (xs : List JSValue) (i : Nat) (path : String) (out : List Finding),
      (∀ x ∈ xs, ∀ (p : String) (o : List Finding),
        visitE rules file x p = .ok o → o = visit rules file x p) →
      visitArrE rules file xs i path = .ok out →
      out = visitArr rules file xs i path := by
  intro xs
  induction xs with
  | nil =>
    intro i path out _ h
    simp only [visitArrE, Except.ok.injEq] at h
    rw [← h]
    rfl
  | cons x rest ih =>
    intro i path out hel h
    have hstepE : visitArrE rules file (x :: rest) i path =
        (if x.objectLike then
          match childMapFindingE rules file (normalizeKey (Nat.repr i)) x
              (joinPath path (normalizeKey (Nat.repr i))) with
          | .error e => .error e
          | .ok fs1 =>
            match visitE rules file x (joinPath path (normalizeKey (Nat.repr i))) with
            | .error e => .error e
            | .ok fs2 =>
              match visitArrE rules file rest (i + 1) path with
              | .error e => .error e
              | .ok fs3 => .ok (fs1 ++ fs2 ++ fs3)
        else visitArrE rules file rest (i + 1) path) := rfl
    have hstepP : visitArr rules file (x :: rest) i path =
        (if x.objectLike then
          childMapFinding rules file (normalizeKey (Nat.repr i)) x
              (joinPath path (normalizeKey (Nat.repr i))) ++
            visit rules file x (joinPath path (normalizeKey (Nat.repr i)))
        else []) ++ visitArr rules file rest (i + 1) path := rfl
    have hrest : ∀ x ∈ rest, ∀ (p : String) (o : List Finding),
        visitE rules file x p = .ok o → o = visit rules file x p :=
      fun x hx => hel x (List.mem_cons_of_mem _ hx)
    rw [hstepE] at h
    rw [hstepP]
    by_cases ho : x.objectLike = true
    case neg =>
      rw [if_neg ho] at h
      rw [if_neg ho, ih (i + 1) path _ hrest h]
      simp
    case pos =>
      rw [if_pos ho] at h
      rw [if_pos ho]
      cases hc : childMapFindingE rules file (normalizeKey (Nat.repr i)) x
          (joinPath path (normalizeKey (Nat.repr i))) with
      | error e => rw [hc] at h; simp at h
      | ok fs1 =>
        rw [hc] at h
        cases hv : visitE rules file x (joinPath path (normalizeKey (Nat.repr i))) with
        | error e => rw [hv] at h; simp at h
        | ok fs2 =>
          rw [hv] at h
          cases hr : visitArrE rules file rest (i + 1) path with
          | error e => rw [hr] at h; simp at h
          | ok fs3 =>
            rw [hr] at h
            simp at h
            rw [← h, childMapFindingE_ok_eq _ _ _ _ _ _ hc,
              hel x (List.mem_cons_self _ _) _ _ hv,
              ih (i + 1) path _ hrest hr]
            simp

/-- A walk of the full model that completes without throwing produces the
same finding list as the prototype-free fragment. -/
theorem visitE_ok_eq (rules : RuleSet) (file : String) :
    ∀ (v : JSValue) (path : String) (out : List Finding),
      visitE rules file v path = .ok out → out = visit rules file v path := by
  refine JSValue.strongInduction ?_ ?_ ?_ ?_ ?_ ?_
  · intro path out h
    simp only [visitE, Except.ok.injEq] at h
    rw [← h]; rfl
  · intro b path out h
    simp only [visitE, Except.ok.injEq] at h
    rw [← h]; rfl
  · intro n path out h
    simp only [visitE, Except.ok.injEq] at h
    rw [← h]; rfl
  · intro s path out h
    simp only [visitE, Except.ok.injEq] at h
    rw [← h]; rfl
  · intro xs hx path out h
    have hE : visitE rules file (.vArr xs) path = visitArrE rules file xs 0 path := rfl
    have hP : visit rules file (.vArr xs) path = visitArr rules file xs 0 path := rfl
    rw [hE] at h
    rw [hP]
    exact visitArrE_ok_eq rules file xs 0 path out (fun x hmem => hx x hmem) h
  · intro fields hf path out h
    have hE : visitE rules file (.vObj fields) path =
        (match selfCheckE rules file fields path with
        | .error e => .error e
        | .ok fs1 =>
          match visitFieldsE rules file fields path with
          | .error e => .error e
          | .ok fs2 => .ok (fs1 ++ fs2)) := rfl
    have hP : visit rules file (.vObj fields) path =
        selfCheck rules file fields path ++ visitFields rules file fields path := rfl
    rw [hE] at h
    rw [hP]
    cases hs : selfCheckE rules file fields path with
    | error e => rw [hs] at h; simp at h
    | ok fs1 =>
      rw [hs] at h
      cases hfs : visitFieldsE rules file fields path with
      | error e => rw [hfs] at h; simp at h
      | ok fs2 =>
        rw [hfs] at h
        simp at h
        rw [← h, selfCheckE_ok_eq _ _ _ _ _ hs,
          visitFieldsE_ok_eq rules file fields path fs2 (fun kv hkv => hf kv hkv) hfs]

/-- A scan of the full model that completes without throwing agrees with
the prototype-free fragment `scanPackageLock`. -/
theorem scanPackageLockE_ok_eq (doc : JSValue) (file : String) (rules : RuleSet)
    (fs : List Finding) (h : scanPackageLockE doc file rules = .ok fs) :
    fs = scanPackageLock doc file rules :=
  visitE_ok_eq rules file doc "" fs h

/-- C7 (code_bug evidence).  The spec says a package name absent from the
RuleSet never matches and that the empty feed scans any document with zero
Findings and no error, which is clearly the intent of the guard
`if (!pkgRules || pkgRules.length === 0) return null`.  But the read
`rules[packageName]` follows the prototype chain: for the absent name
`constructor` it yields the inherited `Object` function (truthy, of
`.length` 1), the guards pass, and `pkgRules.filter` throws a `TypeError`
that propagates out of the scan and fails the run.  (For arity-0 members
such as `toString` the `.length === 0` guard happens to return null.)
The empty feed itself still loads as the empty RuleSet. -/
theorem c7_prototype_lookup_throws :
    matchBadRulesE "constructor" (.vStr "1.0.0") [] =
      .error "TypeError: pkgRules.filter is not a function" ∧
    matchBadRulesE "toString" (.vStr "1.0.0") [] = .ok none ∧
    scanPackageLockE (.vObj [("constructor", .vObj [("version", .vStr "1.0.0")])])
      "package-lock.json" [] =
      .error "TypeError: pkgRules.filter is not a function" ∧
    loadBadDependencyRules [] = .ok [] :=
  ⟨rfl, rfl, rfl, rfl⟩

/-- C9 counterexample.  When both the parent path and the normalized key
are empty (an empty raw key at the document root, with the empty string a
ruled package name), the child-map Finding's location is the empty string
(`pathSoFar ? ... : key` yields the key), while the child's self-check
Finding reports `<root>` — the two locations differ, refuting the claim
that both Findings always carry the same location string. -/
theorem c9_counterexample_empty_key_at_root :
    scanPackageLock
        (.vObj [("", .vObj [("name", .vStr "p"), ("version", .vStr "1.0.0")])])
        "f" [("", ["*"]), ("p", ["*"])] =
      [{ file := "f", location := "", name := .vStr "", version := .vStr "1.0.0",
         matchedRanges := ["*"] },
       { file := "f", location := "<root>", name := .vStr "p", version := .vStr "1.0.0",
         matchedRanges := ["*"] }] ∧
    ("" : String) ≠ "<root>" :=
  ⟨rfl, by decide⟩

/-- C9 (amended).  For an object child reached under a key whose
normalized form is a ruled package name, carrying truthy, rule-matching
`name` and `version` fields, the walker emits two Findings for that single
node — the parent's child-map check first, then the child's self-check —
both located at the parent path joined with the normalized key, PROVIDED
that joined path is non-empty.  (When the parent path and the normalized
key are both empty, the self-check Finding reports `<root>` instead, as
the counterexample shows.) -/
theorem c9_child_map_and_self_check_both_fire :
    ∀ (rules : RuleSet) (file path rawKey key cp : String)
      (cf rest_ : List (String × JSValue)) (nm ver : JSValue) (r1 r2 : List String),
      key = normalizeKey rawKey → cp = joinPath path key → cp ≠ "" →
      (lookupRule rules key).isSome = true →
      JSValue.fieldLookup cf "version" = some ver → ver.truthy = true →
      matchBadRules key ver rules = some r1 →
      JSValue.fieldLookup cf "name" = some nm → nm.truthy = true →
      matchBadRules nm.jsToString ver rules = some r2 →
      ∃ tail, visitFields rules file ((rawKey, .vObj cf) :: rest_) path =
        { file := file, location := cp, name := .vStr key, version := ver,
          matchedRanges := r1 } ::
        { file := file, location := cp, name := nm, version := ver,
          matchedRanges := r2 } :: tail := by
  intro rules file path rawKey key cp cf rest_ nm ver r1 r2 hkey hcp hne hlook hver
    htver hm1 hnm htnm hm2
  have hcm : childMapFinding rules file key (.vObj cf) cp =
      [{ file := file, location := cp, name := .vStr key, version := ver,
         matchedRanges := r1 }] := by
    simp [childMapFinding, hlook, JSValue.nodeGet, hver, htver, hm1]
  have hsc : selfCheck rules file cf cp =
      [{ file := file, location := cp, name := nm, version := ver,
         matchedRanges := r2 }] := by
    simp [selfCheck, hnm, hver, htnm, htver, hm2, hne]
  refine ⟨visitFields rules file cf cp ++ visitFields rules file rest_ path, ?_⟩
  have hstep : visitFields rules file ((rawKey, .vObj cf) :: rest_) path =
      (if (JSValue.vObj cf).objectLike = true then
        childMapFinding rules file (normalizeKey rawKey) (.vObj cf)
            (joinPath path (normalizeKey rawKey)) ++
          visit rules file (.vObj cf) (joinPath path (normalizeKey rawKey))
      else []) ++ visitFields rules file rest_ path := rfl
  have hv : visit rules file (.vObj cf) cp =
      selfCheck rules file cf cp ++ visitFields rules file cf cp := rfl
  rw [hstep, ← hkey, ← hcp]
  simp only [JSValue.objectLike, if_true]
  rw [hv, hcm, hsc]
  simp

/-- Witness for C9 (amended) at a concrete entry: the child under
`node_modules/@acme/bad` with matching name and version produces the
child-map Finding and the self-check Finding back to back, both at
`deps.@acme/bad`. -/
theorem c9_child_map_and_self_check_witness :
    ∃ tail, visitFields [("@acme/bad", ["1.0.*"])] "f"
        [("node_modules/@acme/bad",
          .vObj [("name", .vStr "@acme/bad"), ("version", .vStr "1.0.5")])] "deps" =
      { file := "f", location := "deps.@acme/bad", name := .vStr "@acme/bad",
        version := .vStr "1.0.5", matchedRanges := ["1.0.*"] } ::
      { file := "f", location := "deps.@acme/bad", name := .vStr "@acme/bad",
        version := .vStr "1.0.5", matchedRanges := ["1.0.*"] } :: tail :=
  c9_child_map_and_self_check_both_fire [("@acme/bad", ["1.0.*"])] "f" "deps"
    "node_modules/@acme/bad" "@acme/bad" "deps.@acme/bad"
    [("name", .vStr "@acme/bad"), ("version", .vStr "1.0.5")] []
    (.vStr "@acme/bad") (.vStr "1.0.5") ["1.0.*"] ["1.0.*"]
    (by decide) (by decide) (by decide) (by decide) rfl (by decide) rfl rfl
    (by decide) rfl

theorem toDigitsCore_chars_digit :
    ∀ (f n : Nat) (ds : List Char), (∀ c ∈ ds, c.isDigit = true) →
      ∀ c ∈ Nat.toDigitsCore 10 f n ds, c.isDigit = true := by
  intro f
  induction f with
  | zero => intro n ds h c hc; exact h c hc
  | succ f ih =>
    intro n ds h c hc
    have hd : (Nat.digitChar (n % 10)).isDigit = true := by
      have hm : n % 10 < 10 := Nat.mod_lt _ (by norm_num)
      interval_cases h : (n % 10) <;> decide
    unfold Nat.toDigitsCore at hc
    by_cases hdiv : n / 10 = 0
    · rw [if_pos hdiv] at hc
      rcases List.mem_cons.mp hc with rfl | hc
      · exact hd
      · exact h c hc
    · rw [if_neg hdiv] at hc
      refine ih (n / 10) (Nat.digitChar (n % 10) :: ds) ?_ c hc
      intro c hc
      rcases List.mem_cons.mp hc with rfl | hc
      · exact hd
      · exact h c hc

theorem toDigitsCore_ne_nil :
    ∀ (f n : Nat) (ds : List Char), f ≠ 0 ∨ ds ≠ [] →
      Nat.toDigitsCore 10 f n ds ≠ [] := by
  intro f
  induction f with
  | zero =>
    intro n ds h
    rcases h with h | h
    · exact absurd rfl h
    · exact h
  | succ f ih =>
    intro n ds _
    unfold Nat.toDigitsCore
    by_cases hdiv : n / 10 = 0
    · rw [if_pos hdiv]
      exact List.cons_ne_nil _ _
    · rw [if_neg hdiv]
      exact ih (n / 10) (Nat.digitChar (n % 10) :: ds) (Or.inr (List.cons_ne_nil _ _))

theorem natRepr_chars_digit (n : Nat) : ∀ c ∈ (Nat.repr n).data, c.isDigit = true := by
  intro c hc
  have : (Nat.repr n).data = Nat.toDigitsCore 10 (n + 1) n [] := rfl
  rw [this] at hc
  exact toDigitsCore_chars_digit (n + 1) n [] (by intro c hc; cases hc) c hc

theorem natRepr_data_ne_nil (n : Nat) : (Nat.repr n).data ≠ [] := by
  have : (Nat.repr n).data = Nat.toDigitsCore 10 (n + 1) n [] := rfl
  rw [this]
  exact toDigitsCore_ne_nil (n + 1) n [] (Or.inl (Nat.succ_ne_zero n))

theorem splitCharAux_no_sep :
    ∀ (cs acc : List Char), '/' ∉ cs →
      splitCharAux '/' cs acc = [acc.reverse ++ cs] := by
  intro cs
  induction cs with
  | nil => intro acc _; simp [splitCharAux]
  | cons c rest ih =>
    intro acc h
    have hc : ¬(c = '/') := fun hc => h (hc ▸ List.mem_cons_self c rest)
    have hr : '/' ∉ rest := fun hr => h (List.mem_cons_of_mem _ hr)
    simp [splitCharAux, hc, ih (c :: acc) hr]

/-- A non-empty key containing no slash is left unchanged by the key
normalization (the capture is the whole final segment, i.e. the key). -/
theorem normalizeKey_no_slash (s : String) (h1 : s.data ≠ []) (h2 : '/' ∉ s.data) :
    normalizeKey s = s := by
  have hlast : ¬(s.data.getLast? = some '/') :=
    fun hc => h2 (List.mem_of_getLast?_eq_some hc)
  unfold normalizeKey
  rw [if_neg (by push_neg; exact ⟨h1, hlast⟩)]
  rw [splitChar, splitCharAux_no_sep s.data [] h2]
  simp

/-- Decimal index keys normalize to themselves: they are non-empty strings
of digits, containing no slash. -/
theorem normalizeKey_natRepr (i : Nat) : normalizeKey (Nat.repr i) = Nat.repr i := by
  refine normalizeKey_no_slash _ (natRepr_data_ne_nil i) fun hc => ?_
  have := natRepr_chars_digit i '/' hc
  simp at this

theorem natRepr_ne_empty (i : Nat) : Nat.repr i ≠ "" := by
  intro hc
  exact natRepr_data_ne_nil i (congrArg String.data hc)

theorem joinPath_ne_empty (p key : String) (h : key ≠ "") : joinPath p key ≠ "" := by
  unfold joinPath
  by_cases hp : p = ""
  · rw [if_pos hp]; exact h
  · rw [if_neg hp]
    intro hc
    have hdata : (p ++ "." ++ key).data = [] := congrArg String.data hc
    simp [String.data_append] at hdata

theorem mem_visitFields_of_entry (rules : RuleSet) (file : String) :
    ∀ (fs : List (String × JSValue)) (path rawKey : String) (value : JSValue)
      (f : Finding),
      (rawKey, value) ∈ fs → value.objectLike = true →
      f ∈ visit rules file value (joinPath path (normalizeKey rawKey)) →
      f ∈ visitFields rules file fs path := by
  intro fs
  induction fs with
  | nil =>
    intro path rawKey value f hmem _ _
    exact absurd hmem (List.not_mem_nil _)
  | cons kv rest ih =>
    intro path rawKey value f hmem hobj hf
    obtain ⟨k0, v0⟩ := kv
    have hstep : visitFields rules file ((k0, v0) :: rest) path =
        (if v0.objectLike = true then
          childMapFinding rules file (normalizeKey k0) v0
              (joinPath path (normalizeKey k0)) ++
            visit rules file v0 (joinPath path (normalizeKey k0))
        else []) ++ visitFields rules file rest path := rfl
    rw [hstep]
    rcases List.mem_cons.mp hmem with heq | htail
    · injection heq with h1 h2
      subst h1; subst h2
      rw [if_pos hobj]
      exact List.mem_append_left _ (List.mem_append_right _ hf)
    · exact List.mem_append_right _ (ih path rawKey value f htail hobj hf)

theorem mem_visitArr_of_entry (rules : RuleSet) (file : String) :
    ∀ (xs : List JSValue) (j : Nat) (path k : String) (value : JSValue) (f : Finding),
      (k, value) ∈ enumEntries j xs → value.objectLike = true →
      f ∈ visit rules file value (joinPath path (normalizeKey k)) →
      f ∈ visitArr rules file xs j path := by
  intro xs
  induction xs with
  | nil =>
    intro j path k value f hmem _ _
    exact absurd hmem (List.not_mem_nil _)
  | cons x rest ih =>
    intro j path k value f hmem hobj hf
    have hstep : visitArr rules file (x :: rest) j path =
        (if x.objectLike = true then
          childMapFinding rules file (normalizeKey (Nat.repr j)) x
              (joinPath path (normalizeKey (Nat.repr j))) ++
            visit rules file x (joinPath path (normalizeKey (Nat.repr j)))
        else []) ++ visitArr rules file rest (j + 1) path := rfl
    rw [hstep]
    rcases List.mem_cons.mp hmem with heq | htail
    · injection heq with h1 h2
      subst h1; subst h2
      rw [if_pos hobj]
      exact List.mem_append_left _ (List.mem_append_right _ hf)
    · exact List.mem_append_right _ (ih (j + 1) path k value f htail hobj hf)

theorem mem_visit_of_entry (rules : RuleSet) (file : String) (node : JSValue)
    (path rawKey : String) (value : JSValue) (f : Finding)
    (hmem : (rawKey, value) ∈ jsEntries node) (hobj : value.objectLike = true)
    (hf : f ∈ visit rules file value (joinPath path (normalizeKey rawKey))) :
    f ∈ visit rules file node path := by
  cases node with
  | vObj fs =>
    have hv : visit rules file (.vObj fs) path =
        selfCheck rules file fs path ++ visitFields rules file fs path := rfl
    rw [hv]
    exact List.mem_append_right _
      (mem_visitFields_of_entry rules file fs path rawKey value f hmem hobj hf)
  | vArr xs =>
    have hv : visit rules file (.vArr xs) path = visitArr rules file xs 0 path := rfl
    rw [hv]
    exact mem_visitArr_of_entry rules file xs 0 path rawKey value f hmem hobj hf
  | vNull => simp [jsEntries] at hmem
  | vBool b => simp [jsEntries] at hmem
  | vNum n => simp [jsEntries] at hmem
  | vStr s => simp [jsEntries] at hmem

/-- Findings of a reached subtree are findings of the whole walk. -/
theorem mem_visit_of_reaches (rules : RuleSet) (file : String)
    {node target : JSValue} {path tpath : String}
    (h : Reaches node path target tpath) :
    ∀ f ∈ visit rules file target tpath, f ∈ visit rules file node path := by
  induction h with
  | refl node path => exact fun f hf => hf
  | child rawKey hmem hobj _ ih =>
    exact fun f hf =>
      mem_visit_of_entry rules file _ _ rawKey _ f hmem hobj (ih f hf)

theorem enumEntries_mem_of_getElem :
    ∀ (xs : List JSValue) (j i : Nat) (v : JSValue),
      xs.get? i = some v → (Nat.repr (j + i), v) ∈ enumEntries j xs := by
  intro xs
  induction xs with
  | nil =>
    intro j i v h
    cases i <;> simp [List.get?] at h
  | cons x rest ih =>
    intro j i v h
    cases i with
    | zero =>
      simp [List.get?] at h
      subst h
      show (Nat.repr (j + 0), x) ∈ (Nat.repr j, x) :: enumEntries (j + 1) rest
      rw [Nat.add_zero]
      exact List.mem_cons_self _ _
    | succ i =>
      have hm := ih (j + 1) i v (by simpa [List.get?] using h)
      have heq : j + (i + 1) = (j + 1) + i := by omega
      rw [heq]
      exact List.mem_cons_of_mem _ hm

theorem selfCheck_match_singleton (rules : RuleSet) (file : String)
    (cf : List (String × JSValue)) (cp : String) (nm ver : JSValue) (rs : List String)
    (hnm : JSValue.fieldLookup cf "name" = some nm) (htnm : nm.truthy = true)
    (hver : JSValue.fieldLookup cf "version" = some ver) (htver : ver.truthy = true)
    (hm : matchBadRules nm.jsToString ver rules = some rs) (hne : cp ≠ "") :
    selfCheck rules file cf cp =
      [{ file := file, location := cp, name := nm, version := ver,
         matchedRanges := rs }] := by
  simp [selfCheck, hnm, hver, htnm, htver, hm, hne]

/-- C10 (corrected).  The walker recurses into arrays as ordinary
object-typed nodes, keying each element by its decimal index (which
normalizes to itself), so — PROVIDED the scan completes without throwing,
i.e. `scanPackageLockE doc file rules = .ok fs` — a self-describing
package object with truthy `name` and `version` fields that match the
rules, sitting at index `i` of an array reached anywhere in the document,
contributes to `fs` a Finding with that name, version and matched ranges
at the array's path extended by the index.  The proviso is needed because
`rules[key]` follows the prototype chain: a document key such as
`constructor` makes the real scan throw a TypeError and produce no
findings at all (see the counterexample below). -/
theorem c10_array_elements_walked_with_index_keys :
    ∀ (rules : RuleSet) (file : String) (doc : JSValue) (xs : List JSValue)
      (p : String) (i : Nat) (cf : List (String × JSValue)) (nm ver : JSValue)
      (rs : List String) (fs : List Finding),
      scanPackageLockE doc file rules = .ok fs →
      Reaches doc "" (.vArr xs) p →
      xs.get? i = some (.vObj cf) →
      JSValue.fieldLookup cf "name" = some nm → nm.truthy = true →
      JSValue.fieldLookup cf "version" = some ver → ver.truthy = true →
      matchBadRules nm.jsToString ver rules = some rs →
      { file := file, location := joinPath p (Nat.repr i), name := nm, version := ver,
        matchedRanges := rs } ∈ fs := by
  intro rules file doc xs p i cf nm ver rs fs hok hreach hget hnm htnm hver htver hm
  rw [scanPackageLockE_ok_eq doc file rules fs hok]
  have hkey : normalizeKey (Nat.repr i) = Nat.repr i := normalizeKey_natRepr i
  have hcp : joinPath p (Nat.repr i) ≠ "" := joinPath_ne_empty p _ (natRepr_ne_empty i)
  have hsc := selfCheck_match_singleton rules file cf (joinPath p (Nat.repr i))
    nm ver rs hnm htnm hver htver hm hcp
  have hfmem : ({ file := file, location := joinPath p (Nat.repr i), name := nm,
                  version := ver, matchedRanges := rs } : Finding) ∈
      visit rules file (.vObj cf) (joinPath p (Nat.repr i)) := by
    have hv : visit rules file (.vObj cf) (joinPath p (Nat.repr i)) =
        selfCheck rules file cf (joinPath p (Nat.repr i)) ++
          visitFields rules file cf (joinPath p (Nat.repr i)) := rfl
    rw [hv, hsc]
    exact List.mem_append_left _ (List.mem_singleton.mpr rfl)
  have hentry : (Nat.repr i, JSValue.vObj cf) ∈ jsEntries (.vArr xs) := by
    have hm0 := enumEntries_mem_of_getElem xs 0 i (.vObj cf) hget
    simpa [jsEntries] using hm0
  have hmem1 := mem_visit_of_entry rules file (.vArr xs) p (Nat.repr i) (.vObj cf) _
    hentry rfl (by rw [hkey]; exact hfmem)
  exact mem_visit_of_reaches rules file hreach _ hmem1

/-- Witness for C10: on a clean document the full model's scan succeeds
with exactly one Finding, and the theorem places the matching package
object at index 1 of the array under `packages` into that result at
`packages.1`. -/
theorem c10_array_elements_witness :
    scanPackageLockE
        (.vObj [("packages",
          .vArr [.vNum 3,
            .vObj [("name", .vStr "@acme/bad"), ("version", .vStr "1.0.5")]])])
        "f" [("@acme/bad", ["1.0.*"])] =
      .ok [{ file := "f", location := "packages.1",
             name := JSValue.vStr "@acme/bad", version := JSValue.vStr "1.0.5",
             matchedRanges := ["1.0.*"] }] ∧
    ({ file := "f", location := joinPath "packages" (Nat.repr 1),
       name := JSValue.vStr "@acme/bad", version := JSValue.vStr "1.0.5",
       matchedRanges := ["1.0.*"] } : Finding) ∈
      ([{ file := "f", location := "packages.1",
          name := JSValue.vStr "@acme/bad", version := JSValue.vStr "1.0.5",
          matchedRanges := ["1.0.*"] }] : List Finding) := by
  constructor
  · rfl
  · refine c10_array_elements_walked_with_index_keys [("@acme/bad", ["1.0.*"])] "f"
      (.vObj [("packages",
        .vArr [.vNum 3,
          .vObj [("name", .vStr "@acme/bad"), ("version", .vStr "1.0.5")]])])
      [.vNum 3, .vObj [("name", .vStr "@acme/bad"), ("version", .vStr "1.0.5")]]
      "packages" 1 [("name", .vStr "@acme/bad"), ("version", .vStr "1.0.5")]
      (.vStr "@acme/bad") (.vStr "1.0.5") ["1.0.*"]
      [{ file := "f", location := "packages.1",
         name := JSValue.vStr "@acme/bad", version := JSValue.vStr "1.0.5",
         matchedRanges := ["1.0.*"] }]
      rfl ?_ rfl rfl (by decide) rfl (by decide) rfl
    have hmem : ("packages",
        JSValue.vArr [.vNum 3,
          .vObj [("name", .vStr "@acme/bad"), ("version", .vStr "1.0.5")]]) ∈
        jsEntries (.vObj [("packages",
          .vArr [.vNum 3,
            .vObj [("name", .vStr "@acme/bad"), ("version", .vStr "1.0.5")]])]) := by
      simp [jsEntries]
    have he : joinPath "" (normalizeKey "packages") = "packages" := rfl
    exact Reaches.child "packages" hmem rfl (he ▸ Reaches.refl _ _)

/-- Counterexample to C10 as stated: the claim promises the Finding
unconditionally, but a sibling key named `constructor` hits the inherited
`Object.prototype.constructor` through `rules[key]`, the truthiness and
`.length` guards pass, and `pkgRules.filter` throws a TypeError — the scan
aborts with no findings even though the bad package at `packages.0` would
match the rules. -/
theorem c10_counterexample_prototype_key_aborts_scan :
    scanPackageLockE
        (.vObj [("constructor", .vObj [("version", .vStr "1.0.0")]),
          ("packages",
            .vArr [.vObj [("name", .vStr "@acme/bad"), ("version", .vStr "1.0.5")]])])
        "f" [("@acme/bad", ["1.0.*"])] =
      .error "TypeError: pkgRules.filter is not a function" ∧
    matchBadRules "@acme/bad" (.vStr "1.0.5") [("@acme/bad", ["1.0.*"])] =
      some ["1.0.*"] :=
  ⟨rfl, rfl⟩
